import Mathlib

/-!
Shallow embedding of the recast feed proxy (src/main.rs, src/rss.rs).

Conventions of the embedding:
- Rust byte strings are modelled as `List Nat` (one entry per byte) in the
  query-validation component, where percent-decoding and UTF-8 validity act
  on raw bytes; elsewhere Rust `String` values are modelled as Lean `String`.
- chrono timestamps are modelled as `Int` seconds on an unbounded timeline,
  with `tMin`/`tMax` the endpoints of the representable `DateTime` range
  (chrono `MIN_UTC`/`MAX_UTC` as Unix timestamps); `chrono::Duration` is
  modelled as `Int` seconds.
- The chrono date codec (RFC-2822 parsing, RFC-2822 serialization and the
  `Display` rendering of a `DateTime`) is external library code; it is
  abstracted as a `DateCodec` record of functions, over which the theorems
  quantify.
-/

/-- Byte list of an ASCII string literal (for ASCII text the UTF-8 bytes are
exactly the character codes). -/
def bs (s : String) : List Nat := s.data.map Char.toNat

/-- Lower endpoint of the chrono representable DateTime range, as a Unix
timestamp in seconds (start of year -262144, proleptic Gregorian: 264114
years of 96465658 days before the epoch). -/
def tMin : Int := -8334632851200

/-- Upper endpoint of the chrono representable DateTime range, as a Unix
timestamp in seconds (end of year 262143, proleptic Gregorian). -/
def tMax : Int := 8210298412799

/-- chrono `DateTime::checked_add_signed`: the sum when it stays inside the
representable range, `none` on overflow. -/
def checked_add_signed (t : Int) (delay : Int) : Option Int :=
  if tMin ≤ t + delay ∧ t + delay ≤ tMax then some (t + delay) else none

/-- src/rss.rs `compare_time_after_delay`: checked addition of the delay,
then the shifted time is returned only when it is strictly before `now`. -/
def compare_time_after_delay (t : Int) (delay : Int) (now : Int) : Option Int :=
  match checked_add_signed t delay with
  | none => none
  | some new_t => if new_t < now then some new_t else none

/-- Abstraction of the chrono date codec used by src/rss.rs: RFC-2822
parsing (`DateTime::parse_from_rfc2822`, `none` models `Err`), RFC-2822
serialization (`DateTime::to_rfc2822`) and the `Display` rendering used by
`format!` on a `DateTime` value. -/
structure DateCodec where
  parse_from_rfc2822 : String → Option Int
  to_rfc2822 : Int → String
  display : Int → String

/-- rss crate `Item`, restricted to the fields the transform reads or
writes plus representative untouched fields (title, link, author, guid). -/
structure Item where
  title : Option String
  link : Option String
  author : Option String
  guid : Option String
  description : Option String
  pub_date : Option String
deriving DecidableEq

/-- src/rss.rs `postdate_item`: parse the publish date (dropping the item
when it is missing or unparseable), shift it by the delay via
`compare_time_after_delay`, rewrite the publish date with the RFC-2822
serialization of the shifted time, and prepend the original-publication
note to the description when one is present. -/
def postdate_item (dc : DateCodec) (delay : Int) (now : Int) (item : Item) : Option Item :=
  match item.pub_date with
  | none => none
  | some pd =>
    match dc.parse_from_rfc2822 pd with
    | none => none
    | some orig_pubdate =>
      match compare_time_after_delay orig_pubdate delay now with
      | none => none
      | some new_pubdate =>
        let item1 := { item with pub_date := some (dc.to_rfc2822 new_pubdate) }
        match item1.description with
        | none => some item1
        | some orig_desc =>
          some { item1 with description := some ("(originally published on " ++
            dc.display orig_pubdate ++ ") " ++ orig_desc) }

/-- rss crate `Channel`, restricted to channel-level metadata (title, link,
description) and the item list. -/
structure Channel where
  title : String
  link : String
  description : String
  items : List Item
deriving DecidableEq

/-- The transform step of `handler` (src/rss.rs lines 81-86): apply
`postdate_item` to each item, keep the surviving results in order, and
replace the channel item list with them. -/
def postdate_channel (dc : DateCodec) (delay : Int) (now : Int) (ch : Channel) : Channel :=
  { ch with items := ch.items.filterMap (postdate_item dc delay now) }

/-- Erase the two item fields the transform may rewrite (publish date and
description), leaving the untouched fields. -/
def scrub (i : Item) : Item := { i with pub_date := none, description := none }

/-- Value of an ASCII hex digit byte, `none` for a non-hex byte. -/
def hexVal (b : Nat) : Option Nat :=
  if 48 ≤ b ∧ b ≤ 57 then some (b - 48)
  else if 65 ≤ b ∧ b ≤ 70 then some (b - 55)
  else if 97 ≤ b ∧ b ≤ 102 then some (b - 87)
  else none

/-- urlencoding crate `decode_binary`: resolve `%XY` hex escapes to single
bytes; a `%` not followed by two hex digits is kept literally and scanning
resumes at the byte after the `%`. -/
def percent_decode : List Nat → List Nat
  | [] => []
  | 37 :: h1 :: h2 :: rest =>
    match hexVal h1, hexVal h2 with
    | some a, some b => (16 * a + b) :: percent_decode rest
    | _, _ => 37 :: percent_decode (h1 :: h2 :: rest)
  | 37 :: rest => 37 :: percent_decode rest
  | c :: rest => c :: percent_decode rest

/-- Whether a byte is a UTF-8 continuation byte (0x80-0xBF). -/
def is_cont (b : Nat) : Bool := decide (128 ≤ b ∧ b ≤ 191)

/-- UTF-8 validity of a byte list, following the RFC 3629 table used by
Rust `String::from_utf8`. -/
def utf8_valid : List Nat → Bool
  | [] => true
  | b :: r =>
    if b ≤ 127 then utf8_valid r
    else if 194 ≤ b ∧ b ≤ 223 then
      match r with
      | b1 :: r1 => is_cont b1 && utf8_valid r1
      | [] => false
    else if 224 ≤ b ∧ b ≤ 239 then
      match r with
      | b1 :: b2 :: r2 =>
        (if b = 224 then decide (160 ≤ b1 ∧ b1 ≤ 191)
         else if b = 237 then decide (128 ≤ b1 ∧ b1 ≤ 159)
         else is_cont b1) && is_cont b2 && utf8_valid r2
      | _ => false
    else if 240 ≤ b ∧ b ≤ 244 then
      match r with
      | b1 :: b2 :: b3 :: r3 =>
        (if b = 240 then decide (144 ≤ b1 ∧ b1 ≤ 191)
         else if b = 244 then decide (128 ≤ b1 ∧ b1 ≤ 143)
         else is_cont b1) && is_cont b2 && is_cont b3 && utf8_valid r3
      | _ => false
    else false

/-- urlencoding crate `decode`: percent-decode the bytes, then require the
result to be valid UTF-8 (`String::from_utf8`); `none` models the
`FromUtf8Error` case. -/
def decode (data : List Nat) : Option (List Nat) :=
  let d := percent_decode data
  if utf8_valid d then some d else none

/-- Rust `ParseIntError` kinds reachable from `str::parse::<i64>`. -/
inductive ParseIntError where
  | empty
  | invalidDigit
  | posOverflow
  | negOverflow
deriving DecidableEq

/-- Display text of a Rust `ParseIntError`, as byte list. -/
def pie_msg : ParseIntError → List Nat
  | ParseIntError.empty => bs ("cannot parse integer from empty string")
  | ParseIntError.invalidDigit => bs ("invalid digit found in string")
  | ParseIntError.posOverflow => bs ("number too large to fit in target type")
  | ParseIntError.negOverflow => bs ("number too small to fit in target type")

/-- Smallest i64 value. -/
def i64Min : Int := -9223372036854775808

/-- Largest i64 value. -/
def i64Max : Int := 9223372036854775807

/-- Digit loop of Rust `from_str_radix` at radix 10 for i64: bytes are
consumed left to right; a non-digit byte is an invalid-digit error, and an
accumulator leaving the i64 range is an overflow error. -/
def parse_i64_digits (neg : Bool) : List Nat → Int → Except ParseIntError Int
  | [], acc => Except.ok acc
  | c :: rest, acc =>
    if 48 ≤ c ∧ c ≤ 57 then
      let acc2 : Int := if neg then acc * 10 - (c - 48 : Nat) else acc * 10 + (c - 48 : Nat)
      if i64Min ≤ acc2 ∧ acc2 ≤ i64Max then parse_i64_digits neg rest acc2
      else Except.error (if neg then ParseIntError.negOverflow else ParseIntError.posOverflow)
    else Except.error ParseIntError.invalidDigit

/-- Rust `str::parse::<i64>` over the byte list of the string: empty input
is an empty error, a lone sign is an invalid-digit error, otherwise an
optional sign followed by the digit loop. -/
def parse_i64 (s : List Nat) : Except ParseIntError Int :=
  match s with
  | [] => Except.error ParseIntError.empty
  | [43] => Except.error ParseIntError.invalidDigit
  | [45] => Except.error ParseIntError.invalidDigit
  | 43 :: rest => parse_i64_digits false rest 0
  | 45 :: rest => parse_i64_digits true rest 0
  | _ => parse_i64_digits false s 0

/-- Decimal rendering of an integer, as byte list (Rust `format!` of an
i64). -/
def int_dec (i : Int) : List Nat :=
  if i < 0 then 45 :: (Nat.toDigits 10 i.natAbs).map Char.toNat
  else (Nat.toDigits 10 i.natAbs).map Char.toNat

/-- chrono `Duration::hours`, in the seconds model of durations. -/
def duration_hours (h : Int) : Int := h * 3600

/-- chrono `Duration::num_hours`: whole hours, truncated toward zero. -/
def num_hours (d : Int) : Int := d.tdiv 3600

/-- src/rss.rs `RawQuery`: the two untyped query parameters, as byte
lists. -/
structure RawQuery where
  url : List Nat
  delay : List Nat
deriving DecidableEq

/-- src/rss.rs `Query`: percent-decoded url bytes and the delay duration
(seconds). -/
structure Query where
  url : List Nat
  delay : Int
deriving DecidableEq

/-- src/rss.rs `Query::min_delay`: one hour. -/
def Query.min_delay : Int := duration_hours 1

/-- src/rss.rs `TryFrom<RawQuery> for Query`: percent-decode the url
(failing with the `failed to decode URL {url}: {cause}` message), then
parse the delay as i64 (failing with the `delay must be an integer:
{cause}` message), build the hour duration and reject it when it is below
`Query::min_delay` (failing with the `delay must be at least {hours}`
message). `u8e` abstracts the Display text of the `FromUtf8Error` raised
on the (invalid) decoded bytes. -/
def Query.try_from (u8e : List Nat → List Nat) (value : RawQuery) : Except (List Nat) Query :=
  match decode value.url with
  | none =>
    Except.error (bs ("failed to decode URL ") ++ value.url ++ bs (": ") ++
      u8e (percent_decode value.url))
  | some url =>
    match parse_i64 value.delay with
    | Except.ok d =>
      let dh := duration_hours d
      if dh < Query.min_delay then
        Except.error (bs ("delay must be at least ") ++ int_dec (num_hours Query.min_delay))
      else Except.ok { url := url, delay := dh }
    | Except.error e =>
      Except.error (bs ("delay must be an integer: ") ++ pie_msg e)

/-- Largest hour count accepted by chrono `Duration::hours`: the hour
count whose second count still fits in the Duration range of one i64 of
milliseconds; beyond it in absolute value the constructor panics. -/
def duration_hours_bound : Int := 2562047788015

/-- chrono `Duration::hours` with its out-of-bounds panic made explicit:
`some` of the duration when the hour count is representable, `none`
modelling the panic (the process aborts, no value is returned). -/
def duration_hours_checked (h : Int) : Option Int :=
  if -duration_hours_bound ≤ h ∧ h ≤ duration_hours_bound then some (duration_hours h)
  else none

/-- src/rss.rs `TryFrom<RawQuery> for Query` with the chrono
`Duration::hours` panic made explicit: `some r` means the function
returns `r`, `none` models the abort inside `Duration::hours`. On every
returning path it agrees with `Query.try_from`, which describes the
function only where it returns. -/
def Query.try_from_checked (u8e : List Nat → List Nat) (value : RawQuery) :
    Option (Except (List Nat) Query) :=
  match decode value.url with
  | none =>
    some (Except.error (bs ("failed to decode URL ") ++ value.url ++ bs (": ") ++
      u8e (percent_decode value.url)))
  | some url =>
    match parse_i64 value.delay with
    | Except.ok d =>
      match duration_hours_checked d with
      | none => none
      | some dh =>
        if dh < Query.min_delay then
          some (Except.error (bs ("delay must be at least ") ++
            int_dec (num_hours Query.min_delay)))
        else some (Except.ok { url := url, delay := dh })
    | Except.error e =>
      some (Except.error (bs ("delay must be an integer: ") ++ pie_msg e))

/-- src/rss.rs `Error`: the rejection kinds raised by `handler`. -/
inductive Error where
  | FeedLoad (r : String)
  | FeedParse (r : String)
  | QueryParse (r : String)
deriving DecidableEq

/-- src/rss.rs `handle_error`: the rejection found in the request (`none`
models a rejection that carries no `Error`) is mapped to a status code and
a message. -/
def handle_error : Option Error → Nat × String
  | some (Error.FeedLoad r) => (500, "failed to load feed: " ++ r)
  | some (Error.FeedParse r) => (500, "failed to parse feed: " ++ r)
  | some (Error.QueryParse r) => (400, "failed to parse query: " ++ r)
  | none => (500, "unknown error")

/-- The outgoing HTTP response assembled by `handler`: status, header list
(name and value as byte lists, names already normalized to lowercase by
the http crate) and body. -/
structure Resp where
  status : Nat
  headers : List (List Nat × List Nat)
  body : String
deriving DecidableEq

/-- Lowercased name of the Content-Type header. -/
def contentTypeName : List Nat := bs ("content-type")

/-- http crate `HeaderMap::get`: the value of the first header with the
given (normalized) name. -/
def header_get (hs : List (List Nat × List Nat)) (name : List Nat) : Option (List Nat) :=
  (hs.find? (fun p => p.1 == name)).map (fun p => p.2)

/-- Response assembly of `handler` (src/rss.rs lines 69 and 88-92): a 200
response whose only header is the origin Content-Type, copied unchanged
when the origin fetch carried one and omitted otherwise. -/
def build_response (h : List (List Nat × List Nat)) (body : String) : Resp :=
  { status := 200
  , headers :=
      match header_get h contentTypeName with
      | some ct => [(contentTypeName, ct)]
      | none => []
  , body := body }

/-! Helper lemmas. -/

/-- Concrete date codec used to instantiate witness theorems. -/
def dc0 : DateCodec :=
  { parse_from_rfc2822 := fun s => if s = "epoch" then some 0 else none
  , to_rfc2822 := fun t => "rfc " ++ toString t
  , display := fun t => "disp " ++ toString t }

/-- Concrete item used to instantiate witness theorems. -/
def item0 : Item :=
  { title := some ("t"), link := some ("l"), author := some ("a"), guid := some ("g")
  , description := some ("desc"), pub_date := some ("epoch") }

theorem compare_some (t delay now : Int) (h1 : tMin ≤ t + delay) (h2 : t + delay ≤ tMax)
    (h3 : t + delay < now) : compare_time_after_delay t delay now = some (t + delay) := by
  simp [compare_time_after_delay, checked_add_signed, h1, h2, h3]

theorem compare_none_oob (t delay now : Int) (h : t + delay < tMin ∨ tMax < t + delay) :
    compare_time_after_delay t delay now = none := by
  have hni : ¬ (tMin ≤ t + delay ∧ t + delay ≤ tMax) := by omega
  simp [compare_time_after_delay, checked_add_signed, hni]

theorem compare_isSome (t delay now : Int) :
    (compare_time_after_delay t delay now).isSome = true ↔
      (tMin ≤ t + delay ∧ t + delay ≤ tMax ∧ t + delay < now) := by
  unfold compare_time_after_delay checked_add_signed
  by_cases hin : tMin ≤ t + delay ∧ t + delay ≤ tMax
  · by_cases hlt : t + delay < now
    · simp [hin, hlt]
    · simp [hin, hlt]
  · simp [hin]
    omega

theorem postdate_item_isSome (dc : DateCodec) (delay now : Int) (item : Item) (pd : String)
    (p : Int) (hpd : item.pub_date = some pd) (hp : dc.parse_from_rfc2822 pd = some p) :
    (postdate_item dc delay now item).isSome = (compare_time_after_delay p delay now).isSome := by
  simp only [postdate_item, hpd, hp]
  cases hc : compare_time_after_delay p delay now with
  | none => simp
  | some nt => cases hdesc : item.description <;> simp [hdesc]

theorem scrub_postdate (dc : DateCodec) (delay now : Int) (i o : Item)
    (h : postdate_item dc delay now i = some o) : scrub o = scrub i := by
  cases hpd : i.pub_date with
  | none => simp [postdate_item, hpd] at h
  | some pd =>
    cases hp : dc.parse_from_rfc2822 pd with
    | none => simp [postdate_item, hpd, hp] at h
    | some t =>
      cases hc : compare_time_after_delay t delay now with
      | none => simp [postdate_item, hpd, hp, hc] at h
      | some nt =>
        cases hdesc : i.description with
        | none =>
          simp [postdate_item, hpd, hp, hc, hdesc] at h
          rw [← h]
          simp [scrub]
        | some d0 =>
          simp [postdate_item, hpd, hp, hc, hdesc] at h
          rw [← h]
          simp [scrub]

theorem filterMap_scrub_sublist (f : Item → Option Item)
    (hf : ∀ i o, f i = some o → scrub o = scrub i) (l : List Item) :
    List.Sublist ((l.filterMap f).map scrub) (l.map scrub) := by
  induction l with
  | nil => simp
  | cons a l ih =>
    cases hfa : f a with
    | none =>
      simp only [List.filterMap_cons, hfa, List.map_cons]
      exact ih.cons _
    | some b =>
      simp only [List.filterMap_cons, hfa, List.map_cons]
      rw [hf a b hfa]
      exact ih.cons₂ _

theorem min_delay_msg :
    bs ("delay must be at least ") ++ int_dec (num_hours Query.min_delay) =
      bs ("delay must be at least 1") := by decide

theorem try_from_checked_agrees (u8e : List Nat → List Nat) (raw : RawQuery)
    (r : Except (List Nat) Query) (h : Query.try_from_checked u8e raw = some r) :
    Query.try_from u8e raw = r := by
  cases hu : decode raw.url with
  | none =>
    simp only [Query.try_from_checked, hu, Option.some.injEq] at h
    simp only [Query.try_from, hu]
    exact h
  | some u =>
    cases hd : parse_i64 raw.delay with
    | error e =>
      simp only [Query.try_from_checked, hu, hd, Option.some.injEq] at h
      simp only [Query.try_from, hu, hd]
      exact h
    | ok d =>
      by_cases hin : -duration_hours_bound ≤ d ∧ d ≤ duration_hours_bound
      · by_cases hm : duration_hours d < Query.min_delay
        · simp only [Query.try_from_checked, duration_hours_checked, hu, hd, if_pos hin,
            if_pos hm, Option.some.injEq] at h
          simp only [Query.try_from, hu, hd, if_pos hm]
          exact h
        · simp only [Query.try_from_checked, duration_hours_checked, hu, hd, if_pos hin,
            if_neg hm, Option.some.injEq] at h
          simp only [Query.try_from, hu, hd, if_neg hm]
          exact h
      · simp [Query.try_from_checked, duration_hours_checked, hu, hd, hin] at h

/-! Claim theorems. -/

/-- Claim C1: for every item whose publish date parses under the RFC-2822
parser to an instant `p` (necessarily in the representable range), every
delay `d` that the system can supply (validated delays are at least one
hour, hence nonnegative) and every evaluation instant `now` (a
representable DateTime), `postdate_item` retains the item iff
`p + d < now` strictly; an item with a missing or unparseable publish
date is always dropped. -/
theorem c1_retention_iff (dc : DateCodec) (delay now : Int) (item : Item)
    (hd : 0 ≤ delay) (hnow : now ≤ tMax) :
    (∀ pd p, item.pub_date = some pd → dc.parse_from_rfc2822 pd = some p →
      tMin ≤ p → p ≤ tMax →
      ((postdate_item dc delay now item).isSome = true ↔ p + delay < now)) ∧
    (item.pub_date = none → postdate_item dc delay now item = none) ∧
    (∀ pd, item.pub_date = some pd → dc.parse_from_rfc2822 pd = none →
      postdate_item dc delay now item = none) := by
  refine ⟨?_, ?_, ?_⟩
  · intro pd p hpd hp h1 h2
    rw [postdate_item_isSome dc delay now item pd p hpd hp, compare_isSome]
    constructor
    · intro h
      exact h.2.2
    · intro h
      exact ⟨by omega, by omega, h⟩
  · intro h
    simp [postdate_item, h]
  · intro pd hpd hp
    simp [postdate_item, hpd, hp]

/-- Witness for C1 at a concrete retained input: publish date parsing to 0,
delay one hour, now two hours after the epoch of the codec. -/
theorem c1_witness :
    (0 : Int) ≤ 3600 ∧ (7200 : Int) ≤ tMax ∧
    (postdate_item dc0 3600 7200 item0).isSome = true := by
  refine ⟨by decide, by decide, ?_⟩
  exact ((c1_retention_iff dc0 3600 7200 item0 (by decide) (by decide)).1
    "epoch" 0 rfl (by decide) (by decide) (by decide)).mpr (by decide)

/-- Claim C2: a retained item leaves `postdate_item` with its publish date
equal to the RFC-2822 serialization of exactly `p + delay`. -/
theorem c2_pubdate_exact (dc : DateCodec) (delay now : Int) (item : Item) (pd : String)
    (p : Int) (hpd : item.pub_date = some pd) (hp : dc.parse_from_rfc2822 pd = some p)
    (h1 : tMin ≤ p + delay) (h2 : p + delay ≤ tMax) (h3 : p + delay < now) :
    ∃ out, postdate_item dc delay now item = some out ∧
      out.pub_date = some (dc.to_rfc2822 (p + delay)) := by
  have hc := compare_some p delay now h1 h2 h3
  cases hdesc : item.description with
  | none =>
    refine ⟨{ item with pub_date := some (dc.to_rfc2822 (p + delay)) }, ?_, rfl⟩
    simp [postdate_item, hpd, hp, hc, hdesc]
  | some d0 =>
    refine ⟨{ item with
                pub_date := some (dc.to_rfc2822 (p + delay)),
                description := some ("(originally published on " ++
                  dc.display p ++ ") " ++ d0) },
            ?_, rfl⟩
    simp [postdate_item, hpd, hp, hc, hdesc]

/-- Witness for C2 at a concrete retained input. -/
theorem c2_witness :
    ∃ out, postdate_item dc0 3600 7200 item0 = some out ∧
      out.pub_date = some (dc0.to_rfc2822 (0 + 3600)) := by
  exact c2_pubdate_exact dc0 3600 7200 item0 "epoch" 0 rfl (by decide) (by decide) (by decide)
    (by decide)

/-- Claim C4: a retained item with a description leaves `postdate_item`
with its description equal to the literal prefix, the original timestamp
(the parsed original date, as rendered by the DateTime Display used in
`format!`), the closing text and the original description unchanged; a
retained item without a description keeps no description while its
publish date is rewritten. -/
theorem c4_description_shape (dc : DateCodec) (delay now : Int) (item : Item) (pd : String)
    (p : Int) (hpd : item.pub_date = some pd) (hp : dc.parse_from_rfc2822 pd = some p)
    (h1 : tMin ≤ p + delay) (h2 : p + delay ≤ tMax) (h3 : p + delay < now) :
    (∀ d0, item.description = some d0 →
      ∃ out, postdate_item dc delay now item = some out ∧
        out.description = some ("(originally published on " ++ dc.display p ++ ") " ++ d0)) ∧
    (item.description = none →
      ∃ out, postdate_item dc delay now item = some out ∧ out.description = none ∧
        out.pub_date = some (dc.to_rfc2822 (p + delay))) := by
  have hc := compare_some p delay now h1 h2 h3
  constructor
  · intro d0 hdesc
    refine ⟨{ item with
                pub_date := some (dc.to_rfc2822 (p + delay)),
                description := some ("(originally published on " ++
                  dc.display p ++ ") " ++ d0) },
            ?_, rfl⟩
    simp [postdate_item, hpd, hp, hc, hdesc]
  · intro hdesc
    refine ⟨{ item with pub_date := some (dc.to_rfc2822 (p + delay)) }, ?_, ?_, rfl⟩
    · simp [postdate_item, hpd, hp, hc, hdesc]
    · simp [hdesc]

/-- Witness for C4 at a concrete retained input carrying a description. -/
theorem c4_witness :
    ∃ out, postdate_item dc0 3600 7200 item0 = some out ∧
      out.description = some ("(originally published on " ++ dc0.display 0 ++ ") " ++ "desc") := by
  exact (c4_description_shape dc0 3600 7200 item0 "epoch" 0 rfl (by decide) (by decide)
    (by decide) (by decide)).1 "desc" rfl

/-- Claim C6: when the shifted time `p + delay` leaves the representable
DateTime range, the checked addition fails and `postdate_item` drops the
item (no unguarded addition is performed anywhere in the transform). -/
theorem c6_overflow_drops (dc : DateCodec) (delay now : Int) (item : Item) (pd : String)
    (p : Int) (hpd : item.pub_date = some pd) (hp : dc.parse_from_rfc2822 pd = some p)
    (hoob : p + delay < tMin ∨ tMax < p + delay) :
    postdate_item dc delay now item = none := by
  have hc := compare_none_oob p delay now hoob
  simp [postdate_item, hpd, hp, hc]

/-- Witness for C6 at a concrete overflowing delay. -/
theorem c6_witness : postdate_item dc0 (tMax + 1) 0 item0 = none := by
  exact c6_overflow_drops dc0 (tMax + 1) 0 item0 "epoch" 0 rfl (by decide) (by omega)

/-- Counterexample for C3: at the raw query with url `a` and delay `0` the
validation failure message is `delay must be at least 1`, which contains
no letter h (byte 104) and hence does not contain the text
`at least 1 hour` the claim quotes. -/
theorem c3_counterexample :
    Query.try_from (fun _ => []) { url := bs ("a"), delay := bs ("0") } =
      Except.error (bs ("delay must be at least 1")) ∧
    (104 : Nat) ∉ bs ("delay must be at least 1") := by
  exact ⟨by rfl, by decide⟩

/-- Claim C3 as amended: for a raw query whose url decodes, if the delay
string parses as an i64 `d` that is representable as a chrono hour
duration, then `d < 1` fails validation with the message `delay must be
at least 1` (the minimum rendered as a bare hour count, without the word
hour) and `1 ≤ d` validates with delay exactly `d` hours; if `d` lies
outside the representable hour range the program panics inside
`Duration::hours` and no validation outcome is produced; a delay string
that does not parse fails with the message `delay must be an integer: `
followed by the parse error text. -/
theorem c3_delay_validation (u8e : List Nat → List Nat) (raw : RawQuery) (u : List Nat)
    (hu : decode raw.url = some u) :
    (∀ d, parse_i64 raw.delay = Except.ok d →
      -duration_hours_bound ≤ d → d ≤ duration_hours_bound →
      ((d < 1 → Query.try_from_checked u8e raw =
          some (Except.error (bs ("delay must be at least 1")))) ∧
       (1 ≤ d → Query.try_from_checked u8e raw =
          some (Except.ok { url := u, delay := duration_hours d })))) ∧
    (∀ d, parse_i64 raw.delay = Except.ok d →
      (d < -duration_hours_bound ∨ duration_hours_bound < d) →
      Query.try_from_checked u8e raw = none) ∧
    (∀ e, parse_i64 raw.delay = Except.error e →
      Query.try_from_checked u8e raw =
        some (Except.error (bs ("delay must be an integer: ") ++ pie_msg e))) := by
  refine ⟨?_, ?_, ?_⟩
  · intro d hd hlo hhi
    have hin : -duration_hours_bound ≤ d ∧ d ≤ duration_hours_bound := ⟨hlo, hhi⟩
    constructor
    · intro hlt
      have hm : duration_hours d < Query.min_delay := by
        simp only [duration_hours, Query.min_delay]
        omega
      rw [← min_delay_msg]
      simp [Query.try_from_checked, duration_hours_checked, hu, hd, hin, hm]
    · intro hge
      have hm : ¬ duration_hours d < Query.min_delay := by
        simp only [duration_hours, Query.min_delay]
        omega
      simp [Query.try_from_checked, duration_hours_checked, hu, hd, hin, hm]
  · intro d hd hout
    have hnin : ¬ (-duration_hours_bound ≤ d ∧ d ≤ duration_hours_bound) := by omega
    simp [Query.try_from_checked, duration_hours_checked, hu, hd, hnin]
  · intro e he
    simp [Query.try_from_checked, hu, he]

/-- Witness for the amended C3 at a concrete accepted input. -/
theorem c3_witness :
    Query.try_from_checked (fun _ => []) { url := bs ("a"), delay := bs ("2") } =
      some (Except.ok { url := bs ("a"), delay := duration_hours 2 }) := by
  exact ((c3_delay_validation (fun _ => []) { url := bs ("a"), delay := bs ("2") } (bs ("a"))
    (by rfl)).1 2 (by rfl) (by decide) (by decide)).2 (by decide)

/-- Counterexample for C8: the raw query with empty url and delay `1`
validates successfully even though its decoded url is empty, so a
successfully validated request can carry an empty url. -/
theorem c8_counterexample :
    Query.try_from (fun _ => []) { url := [], delay := bs ("1") } =
      Except.ok { url := [], delay := 3600 } ∧
    ({ url := [], delay := 3600 } : Query).url = [] := by
  exact ⟨by rfl, rfl⟩

/-- Claim C8 as amended: every successfully validated request has a url
equal to the percent-decoded form of the raw input (which may be empty,
since emptiness is never checked) and a delay of at least the minimum
delay of one hour. -/
theorem c8_invariants (u8e : List Nat → List Nat) (raw : RawQuery) (q : Query)
    (h : Query.try_from u8e raw = Except.ok q) :
    decode raw.url = some q.url ∧ Query.min_delay ≤ q.delay := by
  cases hu : decode raw.url with
  | none => simp [Query.try_from, hu] at h
  | some u =>
    cases hd : parse_i64 raw.delay with
    | error e => simp [Query.try_from, hu, hd] at h
    | ok d =>
      by_cases hm : duration_hours d < Query.min_delay
      · simp [Query.try_from, hu, hd, hm] at h
      · simp only [Query.try_from, hu, hd, if_neg hm] at h
        have hq : ({ url := u, delay := duration_hours d } : Query) = q := Except.ok.inj h
        have hqu : q.url = u := by rw [← hq]
        have hqd : q.delay = duration_hours d := by rw [← hq]
        constructor
        · rw [hqu]
        · rw [hqd]
          exact not_lt.mp hm

/-- Witness for the amended C8 at a concrete accepted input. -/
theorem c8_witness :
    decode (bs ("https%3A%2F%2Fe")) = some (bs ("https://e")) ∧
    Query.min_delay ≤ (7200 : Int) := by
  exact c8_invariants (fun _ => []) { url := bs ("https%3A%2F%2Fe"), delay := bs ("2") }
    { url := bs ("https://e"), delay := 7200 } (by rfl)

/-- Counterexample for C9: a url whose percent-decoding fails (`%FF`
decodes to an invalid UTF-8 byte) produces a message starting with
`failed to decode URL `, not with `invalid url encoding: `; and a delay
below one hour produces `delay must be at least 1`, which differs from
`delay must be at least 1 hour(s)`. -/
theorem c9_counterexample :
    (Query.try_from (fun _ => bs ("X")) { url := bs ("%FF"), delay := bs ("1") } =
       Except.error (bs ("failed to decode URL %FF: X")) ∧
     (bs ("invalid url encoding: ")).isPrefixOf (bs ("failed to decode URL %FF: X")) = false) ∧
    (Query.try_from (fun _ => []) { url := bs ("b"), delay := bs ("0") } =
       Except.error (bs ("delay must be at least 1")) ∧
     bs ("delay must be at least 1") ≠ bs ("delay must be at least 1 hour(s)")) := by
  exact ⟨⟨by rfl, by decide⟩, ⟨by rfl, by decide⟩⟩

/-- Claim C9 as amended: a url percent-decoding failure produces the
message `failed to decode URL ` followed by the raw url, `: ` and the
decoder error text, and a parsed delay strictly below one hour that is
representable as a chrono hour duration produces the message `delay must
be at least 1` (below the representable range the program instead panics
inside `Duration::hours`). -/
theorem c9_messages (u8e : List Nat → List Nat) (raw : RawQuery) :
    (decode raw.url = none →
      Query.try_from_checked u8e raw = some (Except.error (bs ("failed to decode URL ") ++
        raw.url ++ bs (": ") ++ u8e (percent_decode raw.url)))) ∧
    (∀ u d, decode raw.url = some u → parse_i64 raw.delay = Except.ok d →
      -duration_hours_bound ≤ d → d < 1 →
      Query.try_from_checked u8e raw =
        some (Except.error (bs ("delay must be at least 1")))) := by
  constructor
  · intro hu
    simp [Query.try_from_checked, hu]
  · intro u d hu hd hlo hlt
    have hhi : d ≤ duration_hours_bound := by
      have hb : (1 : Int) ≤ duration_hours_bound := by decide
      omega
    have hin : -duration_hours_bound ≤ d ∧ d ≤ duration_hours_bound := ⟨hlo, hhi⟩
    have hm : duration_hours d < Query.min_delay := by
      simp only [duration_hours, Query.min_delay]
      omega
    rw [← min_delay_msg]
    simp [Query.try_from_checked, duration_hours_checked, hu, hd, hin, hm]

/-- Witness for the amended C9 at a concrete failing decode. -/
theorem c9_witness :
    Query.try_from_checked (fun _ => bs ("c")) { url := bs ("%80"), delay := bs ("5") } =
      some (Except.error (bs ("failed to decode URL %80: c"))) := by
  have h := (c9_messages (fun _ => bs ("c")) { url := bs ("%80"), delay := bs ("5") }).1
    (by decide)
  exact h

/-- Claim C5: the error mapper sends QueryParse rejections to status 400
with the `failed to parse query` message, FeedLoad and FeedParse
rejections to status 500 with their respective messages, and any request
whose rejection carries no recognized error to status 500 with the
`unknown error` message. -/
theorem c5_error_mapping (r : String) :
    handle_error (some (Error.QueryParse r)) = (400, "failed to parse query: " ++ r) ∧
    handle_error (some (Error.FeedLoad r)) = (500, "failed to load feed: " ++ r) ∧
    handle_error (some (Error.FeedParse r)) = (500, "failed to parse feed: " ++ r) ∧
    handle_error none = (500, "unknown error") := by
  exact ⟨rfl, rfl, rfl, rfl⟩

/-- Claim C7: the transform step of the handler leaves the channel-level
metadata unchanged, and the surviving items, once their two rewritable
fields (publish date, description) are erased, form a sublist of the
original items with the same fields erased: the step preserves the
original relative order, adds no items, and leaves every other item field
unchanged. -/
theorem c7_transform_frame (dc : DateCodec) (delay now : Int) (ch : Channel) :
    (postdate_channel dc delay now ch).title = ch.title ∧
    (postdate_channel dc delay now ch).link = ch.link ∧
    (postdate_channel dc delay now ch).description = ch.description ∧
    List.Sublist (((postdate_channel dc delay now ch).items).map scrub)
      (ch.items.map scrub) := by
  refine ⟨rfl, rfl, rfl, ?_⟩
  exact filterMap_scrub_sublist (postdate_item dc delay now)
    (fun i o h => scrub_postdate dc delay now i o h) ch.items

/-- Claim C10: on the success path the outgoing response has status 200,
carries the origin Content-Type value unchanged when the origin response
supplied one, has no headers at all otherwise, and in either case
propagates no other origin header. -/
theorem c10_content_type (h : List (List Nat × List Nat)) (body : String) :
    (build_response h body).status = 200 ∧
    (∀ v, header_get h contentTypeName = some v →
      (build_response h body).headers = [(contentTypeName, v)]) ∧
    (header_get h contentTypeName = none → (build_response h body).headers = []) := by
  refine ⟨rfl, ?_, ?_⟩
  · intro v hv
    simp [build_response, hv]
  · intro hv
    simp [build_response, hv]

/-- Witness for C10 at a concrete origin header map carrying a
Content-Type and one extra header. -/
theorem c10_witness :
    (build_response [(bs ("content-type"), bs ("text/xml")), (bs ("x-extra"), bs ("y"))]
      "b").status = 200 ∧
    (build_response [(bs ("content-type"), bs ("text/xml")), (bs ("x-extra"), bs ("y"))]
      "b").headers = [(contentTypeName, bs ("text/xml"))] := by
  have h := c10_content_type [(bs ("content-type"), bs ("text/xml")), (bs ("x-extra"), bs ("y"))]
    "b"
  exact ⟨h.1, h.2.1 (bs ("text/xml")) (by rfl)⟩
